import Mathlib

/-!
Verification development for the Euler–Black–Scholes delta-hedging engine
(`src/solutions/euler_black_scholes.py`).

The Python class `EulerBlackScholes` is embedded shallowly:

* machine floats become exact reals (`ℝ`);
* `scipy.stats.norm.cdf` is an external library function, so it enters the
  embedding as an explicit parameter `Phi : ℝ → ℝ`; theorems that need
  mathematical facts about the standard normal CDF take them as hypotheses;
* `np.random.normal` draws are the injected randomness: the realized
  Gaussian increments enter as an explicit function `dW : ℕ → ℝ`
  (`dW t` is the increment consumed at step `t`);
* the recording loop of `delta_hedge_short_call` becomes a `List.foldl`
  over the list of rebalancing grid indices, with the loop-carried
  variables gathered in `LoopState`.
-/

/-- The constructor parameters of the Python class `EulerBlackScholes`
(`__init__`): initial price, risk-free rate, true and model volatilities,
maturity and number of time steps.  The constructor performs no
validation; it only stores the fields and derives `dt`. -/
structure EulerBlackScholes where
  S0 : ℝ
  r : ℝ
  sigma_true : ℝ
  sigma_model : ℝ
  T : ℝ
  N : ℕ

namespace EulerBlackScholes

/-- `self.dt = T / N` (step size derived in `__init__`). -/
noncomputable def dt (m : EulerBlackScholes) : ℝ := m.T / (m.N : ℝ)

/-- `call_price(self, S, K, tau)`: Black–Scholes price of a European call
under the model volatility, with the intrinsic-value branch for
`tau <= 0`.  `Phi` stands for the external `norm.cdf`. -/
noncomputable def call_price (Phi : ℝ → ℝ) (m : EulerBlackScholes)
    (S K tau : ℝ) : ℝ :=
  if tau ≤ 0 then max 0 (S - K)
  else
    let d1 := (Real.log (S / K) + (m.r + 0.5 * m.sigma_model ^ 2) * tau) /
      (m.sigma_model * Real.sqrt tau)
    let d2 := d1 - m.sigma_model * Real.sqrt tau
    S * Phi d1 - K * Real.exp (-m.r * tau) * Phi d2

/-- `call_delta(self, S, K, tau)`: Black–Scholes delta of a European call
under the model volatility, with the boundary branch
`1.0 if S > K else 0.0` for `tau <= 0`. -/
noncomputable def call_delta (Phi : ℝ → ℝ) (m : EulerBlackScholes)
    (S K tau : ℝ) : ℝ :=
  if tau ≤ 0 then (if K < S then 1 else 0)
  else
    let d1 := (Real.log (S / K) + (m.r + 0.5 * m.sigma_model ^ 2) * tau) /
      (m.sigma_model * Real.sqrt tau)
    Phi d1

/-- The time grid of `simulate`: `np.linspace(0, T, N+1)` places point `i`
at `i * T / N = i * dt`. -/
noncomputable def timeGrid (m : EulerBlackScholes) (i : ℕ) : ℝ :=
  (i : ℝ) * m.dt

/-- The price recursion of `simulate`: `S[0] = S0` and
`S[t] = S[t-1] * exp((r - 0.5*sigma_true^2)*dt + sigma_true*dw)` where
`dw = dW t` is the Gaussian increment drawn at step `t`. -/
noncomputable def simPath (m : EulerBlackScholes) (dW : ℕ → ℝ) : ℕ → ℝ
  | 0 => m.S0
  | t + 1 => simPath m dW t *
      Real.exp ((m.r - 0.5 * m.sigma_true ^ 2) * m.dt +
        m.sigma_true * dW (t + 1))

/-- `simulate(self)`: returns the pair `(time, S)` of arrays of length
`N + 1`. -/
noncomputable def simulate (m : EulerBlackScholes) (dW : ℕ → ℝ) :
    List ℝ × List ℝ :=
  ((List.range (m.N + 1)).map (timeGrid m),
   (List.range (m.N + 1)).map (simPath m dW))

/-- The loop-carried state of the rebalancing loop of
`delta_hedge_short_call`: the two accumulator scalars `cash_account` and
`stock_position` and the four recording lists. -/
structure LoopState where
  cash_account : ℝ
  stock_position : ℝ
  portfolio_values : List ℝ
  option_values : List ℝ
  delta_values : List ℝ
  hedge_times : List ℝ

/-- One iteration of the rebalancing loop of `delta_hedge_short_call` at
grid index `i`: interest accrual, re-pricing, rebalancing trade, and the
four `append`s. -/
noncomputable def hedgeIter (Phi : ℝ → ℝ) (m : EulerBlackScholes) (K : ℝ)
    (hedge_interval : ℕ) (S : ℕ → ℝ) (st : LoopState) (i : ℕ) : LoopState :=
  let current_time := timeGrid m i
  let time_to_maturity := m.T - current_time
  let cash1 := st.cash_account * Real.exp (m.r * (hedge_interval : ℝ) * m.dt)
  let current_option := call_price Phi m (S i) K time_to_maturity
  let current_delta := call_delta Phi m (S i) K time_to_maturity
  let shares_to_trade := current_delta - st.stock_position
  let cash2 := cash1 - shares_to_trade * S i
  { cash_account := cash2
    stock_position := current_delta
    portfolio_values := st.portfolio_values ++ [cash2 + current_delta * S i]
    option_values := st.option_values ++ [current_option]
    delta_values := st.delta_values ++ [current_delta]
    hedge_times := st.hedge_times ++ [current_time] }

/-- The grid indices visited by `range(hedge_interval, N+1, hedge_interval)`:
for `hedge_interval ≥ 1` these are `hedge_interval, 2*hedge_interval, …`
up to the largest multiple `≤ N`, i.e. `(k+1)*hedge_interval` for
`k < N / hedge_interval`. -/
def loopIndices (N hedge_interval : ℕ) : List ℕ :=
  (List.range (N / hedge_interval)).map (fun k => (k + 1) * hedge_interval)

/-- The state holding the initial portfolio (premium received, initial
delta-hedge purchased) and the initial entries of the recording lists,
as set up before the loop of `delta_hedge_short_call`. -/
noncomputable def initState (Phi : ℝ → ℝ) (m : EulerBlackScholes) (K : ℝ) :
    LoopState :=
  let option_price := call_price Phi m m.S0 K m.T
  let initial_delta := call_delta Phi m m.S0 K m.T
  let cash0 := option_price - initial_delta * m.S0
  { cash_account := cash0
    stock_position := initial_delta
    portfolio_values := [cash0 + initial_delta * m.S0]
    option_values := [option_price]
    delta_values := [initial_delta]
    hedge_times := [0] }

/-- The loop state after the first `k` iterations of the rebalancing loop
(iteration `j` runs at grid index `j * hedge_interval`). -/
noncomputable def stateAfter (Phi : ℝ → ℝ) (m : EulerBlackScholes) (K : ℝ)
    (hedge_interval : ℕ) (S : ℕ → ℝ) : ℕ → LoopState
  | 0 => initState Phi m K
  | k + 1 => hedgeIter Phi m K hedge_interval S
      (stateAfter Phi m K hedge_interval S k) ((k + 1) * hedge_interval)

/-- The returned dictionary of `delta_hedge_short_call`. -/
structure HedgeResult where
  final_pnl : ℝ
  portfolio_values : List ℝ
  option_values : List ℝ
  delta_values : List ℝ
  hedge_times : List ℝ
  stock_path : List ℝ
  time : List ℝ

/-- `delta_hedge_short_call(self, K, hedge_interval)`: simulate a path,
set up the initial short-call hedge, run the rebalancing loop, then
perform the terminal settlement (payoff, liquidation, payoff payment)
and append the final portfolio value, option payoff and time `T`.
Note that the terminal block appends to `portfolio_values`,
`option_values` and `hedge_times` but not to `delta_values`. -/
noncomputable def delta_hedge_short_call (Phi : ℝ → ℝ)
    (m : EulerBlackScholes) (K : ℝ) (hedge_interval : ℕ) (dW : ℕ → ℝ) :
    HedgeResult :=
  let S := simPath m dW
  let final := (loopIndices m.N hedge_interval).foldl
    (hedgeIter Phi m K hedge_interval S) (initState Phi m K)
  let option_payoff := max 0 (S m.N - K)
  let cashT := final.cash_account + final.stock_position * S m.N - option_payoff
  { final_pnl := cashT
    portfolio_values := final.portfolio_values ++ [cashT]
    option_values := final.option_values ++ [option_payoff]
    delta_values := final.delta_values
    hedge_times := final.hedge_times ++ [m.T]
    stock_path := (List.range (m.N + 1)).map S
    time := (List.range (m.N + 1)).map (timeGrid m) }

/-! ### Entry descriptions of the recorded series

After `k` loop iterations the four recording lists are exactly the maps of
the following entry functions over `0, 1, …, k` (entry `0` being the
initial record, entry `j ≥ 1` the record of the iteration at grid index
`j * hedge_interval`). -/

/-- Recorded portfolio value of checkpoint `j`. -/
noncomputable def pvEntry (Phi : ℝ → ℝ) (m : EulerBlackScholes) (K : ℝ)
    (hedge_interval : ℕ) (S : ℕ → ℝ) (j : ℕ) : ℝ :=
  (stateAfter Phi m K hedge_interval S j).cash_account +
    (stateAfter Phi m K hedge_interval S j).stock_position * S (j * hedge_interval)

/-- Recorded option value of checkpoint `j`. -/
noncomputable def ovEntry (Phi : ℝ → ℝ) (m : EulerBlackScholes) (K : ℝ)
    (hedge_interval : ℕ) (S : ℕ → ℝ) (j : ℕ) : ℝ :=
  call_price Phi m (S (j * hedge_interval)) K (m.T - timeGrid m (j * hedge_interval))

/-- Recorded delta of checkpoint `j`. -/
noncomputable def dvEntry (Phi : ℝ → ℝ) (m : EulerBlackScholes) (K : ℝ)
    (hedge_interval : ℕ) (S : ℕ → ℝ) (j : ℕ) : ℝ :=
  (stateAfter Phi m K hedge_interval S j).stock_position

/-- Recorded checkpoint time of checkpoint `j`. -/
noncomputable def tEntry (m : EulerBlackScholes) (hedge_interval j : ℕ) : ℝ :=
  timeGrid m (j * hedge_interval)

section LoopLemmas

variable (Phi : ℝ → ℝ) (m : EulerBlackScholes) (K : ℝ)
variable (hedge_interval : ℕ) (S : ℕ → ℝ) (dW : ℕ → ℝ)

/-- The price recursion keeps prices strictly positive whenever the
initial price is. -/
lemma simPath_pos (h0 : 0 < m.S0) : ∀ t, 0 < simPath m dW t
  | 0 => h0
  | t + 1 => mul_pos (simPath_pos h0 t) (Real.exp_pos _)

/-- Reading a mapped range list at an in-range index. -/
lemma getD_range_map (f : ℕ → ℝ) {n j : ℕ} (hj : j < n) :
    ((List.range n).map f).getD j 0 = f j := by
  rw [List.getD_eq_getElem?_getD, List.getElem?_map, List.getElem?_range hj]
  rfl

/-- Folding the loop body over the first `k` rebalancing indices gives
`stateAfter k`. -/
lemma foldl_hedgeIter_eq : ∀ k : ℕ,
    ((List.range k).map (fun j => (j + 1) * hedge_interval)).foldl
      (hedgeIter Phi m K hedge_interval S) (initState Phi m K) =
    stateAfter Phi m K hedge_interval S k := by
  intro k
  induction k with
  | zero => rfl
  | succ k ih =>
      rw [List.range_succ, List.map_append, List.foldl_append, ih]
      rfl

/-- The fold over `loopIndices` is `stateAfter (N / hedge_interval)`. -/
lemma loopIndices_foldl :
    (loopIndices m.N hedge_interval).foldl
      (hedgeIter Phi m K hedge_interval S) (initState Phi m K) =
    stateAfter Phi m K hedge_interval S (m.N / hedge_interval) :=
  foldl_hedgeIter_eq Phi m K hedge_interval S _

/-- Shape of the four recording lists after `k` loop iterations. -/
lemma stateAfter_records (hS0 : S 0 = m.S0) : ∀ k : ℕ,
    (stateAfter Phi m K hedge_interval S k).portfolio_values =
      (List.range (k + 1)).map (pvEntry Phi m K hedge_interval S) ∧
    (stateAfter Phi m K hedge_interval S k).option_values =
      (List.range (k + 1)).map (ovEntry Phi m K hedge_interval S) ∧
    (stateAfter Phi m K hedge_interval S k).delta_values =
      (List.range (k + 1)).map (dvEntry Phi m K hedge_interval S) ∧
    (stateAfter Phi m K hedge_interval S k).hedge_times =
      (List.range (k + 1)).map (tEntry m hedge_interval) := by
  intro k
  induction k with
  | zero =>
      refine ⟨?_, ?_, ?_, ?_⟩ <;>
        simp [stateAfter, initState, pvEntry, ovEntry, dvEntry, tEntry,
          timeGrid, hS0, List.range_succ]
  | succ k ih =>
      obtain ⟨ih1, ih2, ih3, ih4⟩ := ih
      refine ⟨?_, ?_, ?_, ?_⟩ <;>
        rw [List.range_succ, List.map_append] <;>
        simp [ih1, ih2, ih3, ih4, pvEntry, ovEntry, dvEntry, tEntry,
          stateAfter, hedgeIter]

/-- The self-financing cash recurrence of one loop iteration, in terms of
the loop state: interest accrual over `hedge_interval` grid steps, then
the rebalancing trade at the checkpoint price. -/
lemma cash_recurrence (k : ℕ) :
    (stateAfter Phi m K hedge_interval S (k + 1)).cash_account =
      (stateAfter Phi m K hedge_interval S k).cash_account *
        Real.exp (m.r * (hedge_interval : ℝ) * m.dt) -
      ((stateAfter Phi m K hedge_interval S (k + 1)).stock_position -
        (stateAfter Phi m K hedge_interval S k).stock_position) *
        S ((k + 1) * hedge_interval) := by
  simp only [stateAfter, hedgeIter]

/-- Shape of the returned `HedgeResult`: each recorded series is the map
of its entry function over the checkpoints `0 … N / hedge_interval`, with
the terminal appends on the portfolio, option and time series (but not on
the delta series), and the final P&L is the post-loop cash plus the
liquidation proceeds minus the payoff. -/
lemma delta_hedge_result_shape :
    let R := delta_hedge_short_call Phi m K hedge_interval dW
    let S := simPath m dW
    let M := m.N / hedge_interval
    let payoff := max 0 (S m.N - K)
    let cashT := (stateAfter Phi m K hedge_interval S M).cash_account +
      (stateAfter Phi m K hedge_interval S M).stock_position * S m.N - payoff
    R.final_pnl = cashT ∧
    R.portfolio_values =
      (List.range (M + 1)).map (pvEntry Phi m K hedge_interval S) ++ [cashT] ∧
    R.option_values =
      (List.range (M + 1)).map (ovEntry Phi m K hedge_interval S) ++ [payoff] ∧
    R.delta_values =
      (List.range (M + 1)).map (dvEntry Phi m K hedge_interval S) ∧
    R.hedge_times =
      (List.range (M + 1)).map (tEntry m hedge_interval) ++ [m.T] := by
  have hrec := stateAfter_records Phi m K hedge_interval (simPath m dW) rfl
    (m.N / hedge_interval)
  obtain ⟨h1, h2, h3, h4⟩ := hrec
  simp [delta_hedge_short_call, loopIndices_foldl, h1, h2, h3, h4]

/-- Lengths of the four recorded series: `N / hedge_interval + 2` for the
portfolio, option and time series, and `N / hedge_interval + 1` for the
delta series. -/
lemma delta_hedge_lengths :
    (delta_hedge_short_call Phi m K hedge_interval dW).portfolio_values.length =
      m.N / hedge_interval + 2 ∧
    (delta_hedge_short_call Phi m K hedge_interval dW).option_values.length =
      m.N / hedge_interval + 2 ∧
    (delta_hedge_short_call Phi m K hedge_interval dW).delta_values.length =
      m.N / hedge_interval + 1 ∧
    (delta_hedge_short_call Phi m K hedge_interval dW).hedge_times.length =
      m.N / hedge_interval + 2 := by
  obtain ⟨-, h2, h3, h4, h5⟩ := delta_hedge_result_shape Phi m K hedge_interval dW
  refine ⟨?_, ?_, ?_, ?_⟩ <;>
    simp [h2, h3, h4, h5]

end LoopLemmas

/-- Modelled from the spec: step 4 of §4.3 together with the §4.7 edge-case
policy.  When the last regular checkpoint falls short of `N`
(`hedge_interval` does not divide `N`), the terminal settlement first
performs a step-3a–3c-equivalent update — interest accrual on cash over
the tail interval and a rebalance to the terminal delta — and only then
liquidates the stock and pays the option payoff.  This definition follows
the spec's words; the source's `delta_hedge_short_call` performs no such
tail update. -/
noncomputable def specFinalPnl (Phi : ℝ → ℝ) (m : EulerBlackScholes) (K : ℝ)
    (hedge_interval : ℕ) (S : ℕ → ℝ) : ℝ :=
  let M := m.N / hedge_interval
  let st := stateAfter Phi m K hedge_interval S M
  let payoff := max 0 (S m.N - K)
  if M * hedge_interval = m.N then
    st.cash_account + st.stock_position * S m.N - payoff
  else
    let tail := m.N - M * hedge_interval
    let cash1 := st.cash_account * Real.exp (m.r * (tail : ℝ) * m.dt)
    let deltaN := call_delta Phi m (S m.N) K (m.T - timeGrid m m.N)
    let cash2 := cash1 - (deltaN - st.stock_position) * S m.N
    cash2 + deltaN * S m.N - payoff

/-- Modelled from the spec: the §7 `InvalidParameter` taxonomy — positive
initial price, volatilities, maturity and step count, and
`hedge_interval` within `[1, N]`.  The source performs no such check. -/
def validParams (m : EulerBlackScholes) (hedge_interval : ℕ) : Prop :=
  0 < m.S0 ∧ 0 < m.sigma_true ∧ 0 < m.sigma_model ∧ 0 < m.T ∧
    1 ≤ m.N ∧ 1 ≤ hedge_interval ∧ hedge_interval ≤ m.N

end EulerBlackScholes

open EulerBlackScholes

/-! ### Concrete instances used by witnesses and counterexamples -/

/-- A stand-in for the external normal CDF that is identically `0`
(used only to instantiate hypotheses at concrete inputs). -/
def PhiZero : ℝ → ℝ := fun _ => 0

/-- A stand-in for the external normal CDF that is identically `1/2`. -/
noncomputable def PhiHalf : ℝ → ℝ := fun _ => 1 / 2

/-- The all-zero sequence of Gaussian draws. -/
def dZero : ℕ → ℝ := fun _ => 0

/-- Parameters with a single time step (`N = 1`). -/
def mA : EulerBlackScholes := ⟨1, 0, 1, 1, 1, 1⟩

/-- Parameters with two time steps (`T = 1`, `N = 2`). -/
def mB : EulerBlackScholes := ⟨1, 0, 1, 1, 1, 2⟩

/-- Parameters chosen so that the zero-draw path is constant
(`r - sigma_true^2 / 2 = 0`) while the rate is nonzero:
`S0 = 1`, `r = 2`, `sigma_true = 2`, `sigma_model = 1`, `T = 3`, `N = 3`. -/
def mC : EulerBlackScholes := ⟨1, 2, 2, 1, 3, 3⟩

/-! ### Claim C1 -/

/-- C1, counterexample to the claim as stated: the four recorded series do
NOT all have equal length.  With `S0 = 1, r = 0, σ = 1, T = 1, N = 1` and
`hedgeIntervalSteps = 1`, the delta series has 2 entries while the
portfolio series has 3: the terminal-settlement block appends to the
portfolio, option and time series but not to the delta series. -/
theorem c1_counterexample :
    (delta_hedge_short_call PhiZero mA 1 1 dZero).delta_values.length ≠
      (delta_hedge_short_call PhiZero mA 1 1 dZero).portfolio_values.length := by
  obtain ⟨hp, -, hd, -⟩ := delta_hedge_lengths PhiZero mA 1 1 dZero
  rw [hd, hp]
  norm_num [mA]

/-- C1 (amended): for every valid call (`1 ≤ hedgeIntervalSteps ≤ N`), the
portfolio, option and checkpoint-time series each have length
`⌊N / hedgeIntervalSteps⌋ + 2` (initial entry, one entry per regular
rebalance, terminal entry), while the delta series has length
`⌊N / hedgeIntervalSteps⌋ + 1` — the terminal settlement appends no delta
entry. -/
theorem c1_series_lengths (Phi : ℝ → ℝ) (m : EulerBlackScholes) (K : ℝ)
    (hedge_interval : ℕ) (dW : ℕ → ℝ)
    (hlo : 1 ≤ hedge_interval) (hhi : hedge_interval ≤ m.N) :
    (delta_hedge_short_call Phi m K hedge_interval dW).portfolio_values.length =
      m.N / hedge_interval + 2 ∧
    (delta_hedge_short_call Phi m K hedge_interval dW).option_values.length =
      m.N / hedge_interval + 2 ∧
    (delta_hedge_short_call Phi m K hedge_interval dW).hedge_times.length =
      m.N / hedge_interval + 2 ∧
    (delta_hedge_short_call Phi m K hedge_interval dW).delta_values.length =
      m.N / hedge_interval + 1 := by
  obtain ⟨hp, ho, hd, ht⟩ := delta_hedge_lengths Phi m K hedge_interval dW
  exact ⟨hp, ho, ht, hd⟩

/-- Witness for `c1_series_lengths` at
`Phi = PhiZero, m = mA, K = 1, hedgeIntervalSteps = 1, dW = dZero`. -/
theorem c1_series_lengths_witness :
    (1 ≤ 1 ∧ 1 ≤ mA.N) ∧
    ((delta_hedge_short_call PhiZero mA 1 1 dZero).portfolio_values.length =
        mA.N / 1 + 2 ∧
      (delta_hedge_short_call PhiZero mA 1 1 dZero).option_values.length =
        mA.N / 1 + 2 ∧
      (delta_hedge_short_call PhiZero mA 1 1 dZero).hedge_times.length =
        mA.N / 1 + 2 ∧
      (delta_hedge_short_call PhiZero mA 1 1 dZero).delta_values.length =
        mA.N / 1 + 1) :=
  ⟨⟨le_refl 1, by decide⟩,
    c1_series_lengths PhiZero mA 1 1 dZero (le_refl 1) (by decide)⟩

/-! ### Claim C3 -/

/-- C3, counterexample to the claim as stated: with
`hedgeIntervalSteps = N` the recorded checkpoint times are NOT free of
duplicates.  With `T = 1, N = 2, hedgeIntervalSteps = 2` the loop records
the rebalance at grid index `2` (time `1 = T`) and the terminal block
appends time `T` again, so `hedge_times = [0, 1, 1]`. -/
theorem c3_counterexample :
    ¬ (delta_hedge_short_call PhiZero mB 1 2 dZero).hedge_times.Nodup := by
  obtain ⟨-, -, -, -, hht⟩ := delta_hedge_result_shape PhiZero mB 1 2 dZero
  have hlist : (delta_hedge_short_call PhiZero mB 1 2 dZero).hedge_times =
      [0, 1, 1] := by
    rw [hht]
    norm_num [mB, tEntry, timeGrid, EulerBlackScholes.dt, List.range_succ]
  rw [hlist]
  norm_num [List.nodup_cons]

/-- C3 (amended): with `hedgeIntervalSteps = N` (single rebalance at
maturity) the portfolio, option and time series have exactly 3 recorded
points while the delta series has 2, and the recorded checkpoint times
are `[0, T, T]`: the forced terminal settlement duplicates the time `T`
already recorded by the loop's rebalance at index `N`. -/
theorem c3_single_rebalance (Phi : ℝ → ℝ) (m : EulerBlackScholes) (K : ℝ)
    (dW : ℕ → ℝ) (hN : 1 ≤ m.N) :
    (delta_hedge_short_call Phi m K m.N dW).portfolio_values.length = 3 ∧
    (delta_hedge_short_call Phi m K m.N dW).option_values.length = 3 ∧
    (delta_hedge_short_call Phi m K m.N dW).hedge_times.length = 3 ∧
    (delta_hedge_short_call Phi m K m.N dW).delta_values.length = 2 ∧
    (delta_hedge_short_call Phi m K m.N dW).hedge_times = [0, m.T, m.T] := by
  have hdiv : m.N / m.N = 1 := Nat.div_self (by omega)
  have hcast : (m.N : ℝ) ≠ 0 := Nat.cast_ne_zero.mpr (by omega)
  obtain ⟨hp, ho, hd, ht⟩ := delta_hedge_lengths Phi m K m.N dW
  obtain ⟨-, -, -, -, hht⟩ := delta_hedge_result_shape Phi m K m.N dW
  refine ⟨by rw [hp, hdiv], by rw [ho, hdiv], by rw [ht, hdiv],
    by rw [hd, hdiv], ?_⟩
  rw [hht, hdiv]
  simp [List.range_succ, tEntry, timeGrid]
  rw [EulerBlackScholes.dt]
  field_simp

/-- Witness for `c3_single_rebalance` at
`Phi = PhiZero, m = mB, K = 1, dW = dZero`. -/
theorem c3_single_rebalance_witness :
    1 ≤ mB.N ∧
    ((delta_hedge_short_call PhiZero mB 1 mB.N dZero).portfolio_values.length = 3 ∧
      (delta_hedge_short_call PhiZero mB 1 mB.N dZero).option_values.length = 3 ∧
      (delta_hedge_short_call PhiZero mB 1 mB.N dZero).hedge_times.length = 3 ∧
      (delta_hedge_short_call PhiZero mB 1 mB.N dZero).delta_values.length = 2 ∧
      (delta_hedge_short_call PhiZero mB 1 mB.N dZero).hedge_times =
        [0, mB.T, mB.T]) :=
  ⟨by decide, c3_single_rebalance PhiZero mB 1 dZero (by decide)⟩

/-! ### Claim C5 -/

/-- C5: the self-financing recurrence.  For consecutive regular
checkpoints `k` and `k+1` of a valid hedge run, the cash balance
reconstructed from the recorded series (portfolio value minus delta times
checkpoint price) satisfies
`cash[k+1] = cash[k] * exp(r * hedgeIntervalSteps * Δt) - Δdelta * price`,
the elapsed grid steps between consecutive checkpoints being
`hedgeIntervalSteps`. -/
theorem c5_self_financing (Phi : ℝ → ℝ) (m : EulerBlackScholes) (K : ℝ)
    (hedge_interval : ℕ) (dW : ℕ → ℝ) (k : ℕ)
    (hlo : 1 ≤ hedge_interval) (hhi : hedge_interval ≤ m.N)
    (hk : k + 1 ≤ m.N / hedge_interval) :
    (delta_hedge_short_call Phi m K hedge_interval dW).portfolio_values.getD (k + 1) 0 -
        (delta_hedge_short_call Phi m K hedge_interval dW).delta_values.getD (k + 1) 0 *
          simPath m dW ((k + 1) * hedge_interval) =
      ((delta_hedge_short_call Phi m K hedge_interval dW).portfolio_values.getD k 0 -
          (delta_hedge_short_call Phi m K hedge_interval dW).delta_values.getD k 0 *
            simPath m dW (k * hedge_interval)) *
          Real.exp (m.r * (hedge_interval : ℝ) * m.dt) -
        ((delta_hedge_short_call Phi m K hedge_interval dW).delta_values.getD (k + 1) 0 -
            (delta_hedge_short_call Phi m K hedge_interval dW).delta_values.getD k 0) *
          simPath m dW ((k + 1) * hedge_interval) := by
  obtain ⟨-, hp, -, hd, -⟩ := delta_hedge_result_shape Phi m K hedge_interval dW
  have hpget : ∀ j, j ≤ m.N / hedge_interval →
      (delta_hedge_short_call Phi m K hedge_interval dW).portfolio_values.getD j 0 =
        pvEntry Phi m K hedge_interval (simPath m dW) j := by
    intro j hj
    rw [hp, List.getD_append _ _ _ _ (by simp; omega)]
    exact getD_range_map _ (by omega)
  have hdget : ∀ j, j ≤ m.N / hedge_interval →
      (delta_hedge_short_call Phi m K hedge_interval dW).delta_values.getD j 0 =
        dvEntry Phi m K hedge_interval (simPath m dW) j := by
    intro j hj
    rw [hd]
    exact getD_range_map _ (by omega)
  rw [hpget (k + 1) hk, hpget k (by omega), hdget (k + 1) hk, hdget k (by omega)]
  simp only [pvEntry, dvEntry]
  linear_combination cash_recurrence Phi m K hedge_interval (simPath m dW) k

/-- Witness for `c5_self_financing` at
`Phi = PhiZero, m = mB, K = 1, hedgeIntervalSteps = 1, dW = dZero, k = 0`. -/
theorem c5_self_financing_witness :
    (1 ≤ 1 ∧ 1 ≤ mB.N ∧ 0 + 1 ≤ mB.N / 1) ∧
    ((delta_hedge_short_call PhiZero mB 1 1 dZero).portfolio_values.getD (0 + 1) 0 -
        (delta_hedge_short_call PhiZero mB 1 1 dZero).delta_values.getD (0 + 1) 0 *
          simPath mB dZero ((0 + 1) * 1) =
      ((delta_hedge_short_call PhiZero mB 1 1 dZero).portfolio_values.getD 0 0 -
          (delta_hedge_short_call PhiZero mB 1 1 dZero).delta_values.getD 0 0 *
            simPath mB dZero (0 * 1)) *
          Real.exp (mB.r * (1 : ℕ) * mB.dt) -
        ((delta_hedge_short_call PhiZero mB 1 1 dZero).delta_values.getD (0 + 1) 0 -
            (delta_hedge_short_call PhiZero mB 1 1 dZero).delta_values.getD 0 0) *
          simPath mB dZero ((0 + 1) * 1)) :=
  ⟨⟨le_refl 1, by decide, by decide⟩,
    c5_self_financing PhiZero mB 1 1 dZero 0 (le_refl 1) (by decide) (by decide)⟩

/-! ### Claim C6 -/

/-- C6: the `tau ≤ 0` boundary branch.  For any spot, strike, rate and
model volatility satisfying the preconditions and any `tau ≤ 0`
(including exactly `0`), `call_price` returns the intrinsic value
`max 0 (S - K)` and `call_delta` returns `1` if `S > K` and `0`
otherwise; moreover both results are independent of the normal CDF `Phi`,
so the closed-form formula (and with it any division by `√tau`) is never
evaluated. -/
theorem c6_boundary (Phi : ℝ → ℝ) (m : EulerBlackScholes) (S K tau : ℝ)
    (hS : 0 < S) (hK : 0 < K) (hsig : 0 < m.sigma_model) (htau : tau ≤ 0) :
    call_price Phi m S K tau = max 0 (S - K) ∧
    call_delta Phi m S K tau = (if K < S then 1 else 0) ∧
    (∀ Phi2 : ℝ → ℝ, call_price Phi2 m S K tau = call_price Phi m S K tau ∧
      call_delta Phi2 m S K tau = call_delta Phi m S K tau) := by
  refine ⟨?_, ?_, fun Phi2 => ⟨?_, ?_⟩⟩ <;> simp [call_price, call_delta, htau]

/-- Witness for `c6_boundary` at
`Phi = PhiZero, m = mA, S = 2, K = 1, tau = 0`. -/
theorem c6_boundary_witness :
    ((0 : ℝ) < 2 ∧ (0 : ℝ) < 1 ∧ 0 < mA.sigma_model ∧ (0 : ℝ) ≤ 0) ∧
    (call_price PhiZero mA 2 1 0 = max 0 (2 - 1) ∧
      call_delta PhiZero mA 2 1 0 = (if (1 : ℝ) < 2 then 1 else 0) ∧
      (∀ Phi2 : ℝ → ℝ,
        call_price Phi2 mA 2 1 0 = call_price PhiZero mA 2 1 0 ∧
        call_delta Phi2 mA 2 1 0 = call_delta PhiZero mA 2 1 0)) :=
  ⟨⟨by norm_num, by norm_num, by norm_num [mA], le_refl 0⟩,
    c6_boundary PhiZero mA 2 1 0 (by norm_num) (by norm_num)
      (by norm_num [mA]) (le_refl 0)⟩

/-! ### Claim C9 -/

/-- The price path depends only on the draws actually consumed. -/
lemma simPath_congr (m : EulerBlackScholes) (dW1 dW2 : ℕ → ℝ) :
    ∀ t, (∀ s, 1 ≤ s → s ≤ t → dW1 s = dW2 s) →
      simPath m dW1 t = simPath m dW2 t
  | 0, _ => rfl
  | t + 1, h => by
      rw [simPath, simPath,
        simPath_congr m dW1 dW2 t (fun s h1 h2 => h s h1 (by omega)),
        h (t + 1) (by omega) (le_refl _)]

/-- The loop state depends on the price path only at the visited grid
indices. -/
lemma stateAfter_congr (Phi : ℝ → ℝ) (m : EulerBlackScholes) (K : ℝ)
    (hedge_interval : ℕ) (S1 S2 : ℕ → ℝ) :
    ∀ k, (∀ j, 1 ≤ j → j ≤ k →
        S1 (j * hedge_interval) = S2 (j * hedge_interval)) →
      stateAfter Phi m K hedge_interval S1 k =
        stateAfter Phi m K hedge_interval S2 k
  | 0, _ => rfl
  | k + 1, h => by
      rw [stateAfter, stateAfter,
        stateAfter_congr Phi m K hedge_interval S1 S2 k
          (fun j h1 h2 => h j h1 (by omega)),
        hedgeIter, hedgeIter, h (k + 1) (by omega) (le_refl _)]

/-- C9: determinism up to the injected randomness.  The hedge computation
is a pure function of its parameters and the sequence of realized
Gaussian draws: two runs whose draw sequences agree on the consumed
range `1..N` produce an identical final P&L.  (In the source the draws
come from numpy's seedable generator, so fixing the seed fixes the draw
sequence; the computation keeps no other state between runs.) -/
theorem c9_deterministic (Phi : ℝ → ℝ) (m : EulerBlackScholes) (K : ℝ)
    (hedge_interval : ℕ) (dW1 dW2 : ℕ → ℝ) (hlo : 1 ≤ hedge_interval)
    (hagree : ∀ t, 1 ≤ t → t ≤ m.N → dW1 t = dW2 t) :
    (delta_hedge_short_call Phi m K hedge_interval dW1).final_pnl =
      (delta_hedge_short_call Phi m K hedge_interval dW2).final_pnl := by
  have hpath : ∀ t, t ≤ m.N → simPath m dW1 t = simPath m dW2 t := by
    intro t ht
    exact simPath_congr m dW1 dW2 t (fun s h1 h2 => hagree s h1 (by omega))
  have hstate := stateAfter_congr Phi m K hedge_interval
    (simPath m dW1) (simPath m dW2) (m.N / hedge_interval)
    (fun j h1 h2 => hpath (j * hedge_interval)
      (le_trans (Nat.mul_le_mul_right hedge_interval h2)
        (Nat.div_mul_le_self m.N hedge_interval)))
  obtain ⟨hf1, -, -, -, -⟩ :=
    delta_hedge_result_shape Phi m K hedge_interval dW1
  obtain ⟨hf2, -, -, -, -⟩ :=
    delta_hedge_result_shape Phi m K hedge_interval dW2
  rw [hf1, hf2, hstate, hpath m.N (le_refl _)]

/-- Witness for `c9_deterministic`: `dZero` and a draw sequence that
differs only beyond the consumed range `1..N` give the same final P&L. -/
theorem c9_deterministic_witness :
    (1 ≤ 1 ∧
      ∀ t, 1 ≤ t → t ≤ mA.N → dZero t = (fun s : ℕ => if s ≤ 1 then (0 : ℝ) else 5) t) ∧
    (delta_hedge_short_call PhiZero mA 1 1 dZero).final_pnl =
      (delta_hedge_short_call PhiZero mA 1 1
        (fun s : ℕ => if s ≤ 1 then (0 : ℝ) else 5)).final_pnl :=
  ⟨⟨le_refl 1, fun t h1 h2 => by
      have ht : t = 1 := by
        have : mA.N = 1 := rfl
        omega
      simp [ht, dZero]⟩,
    c9_deterministic PhiZero mA 1 1 dZero _ (le_refl 1)
      (fun t h1 h2 => by
        have ht : t = 1 := by
          have : mA.N = 1 := rfl
          omega
        simp [ht, dZero])⟩

/-! ### Claim C7 -/

/-- C7: range of the Pricer.  For any spot, strike and model volatility
satisfying the preconditions (and any rate and time-to-maturity), the
call price is nonnegative and the delta lies in `[0, 1]`.

The external normal CDF enters as hypotheses that hold for the standard
normal CDF `Φ`: it maps into `[0, 1]`, and
`Φ(x) ≤ exp(s·x + s²/2) · Φ(x + s)` for `s > 0`.  The latter is the
Gaussian change-of-measure bound: `e^{s²/2}·Φ(x) = E[e^{sZ}·1(Z ≤ x+s)]`
(complete the square) and `e^{sZ} ≤ e^{s(x+s)}` on the event
`{Z ≤ x+s}`, so `e^{s²/2}·Φ(x) ≤ e^{s(x+s)}·Φ(x+s)`, i.e.
`Φ(x) ≤ e^{sx+s²/2}·Φ(x+s)`. -/
theorem c7_price_delta_bounds (Phi : ℝ → ℝ)
    (hPhi0 : ∀ x, 0 ≤ Phi x) (hPhi1 : ∀ x, Phi x ≤ 1)
    (hPhiG : ∀ x s : ℝ, 0 < s →
      Phi x ≤ Real.exp (s * x + s ^ 2 / 2) * Phi (x + s))
    (m : EulerBlackScholes) (S K tau : ℝ)
    (hS : 0 < S) (hK : 0 < K) (hsig : 0 < m.sigma_model) :
    0 ≤ call_price Phi m S K tau ∧
    0 ≤ call_delta Phi m S K tau ∧ call_delta Phi m S K tau ≤ 1 := by
  by_cases htau : tau ≤ 0
  · simp only [call_price, call_delta, if_pos htau]
    refine ⟨le_max_left 0 (S - K), ?_, ?_⟩ <;> split_ifs <;> norm_num
  · push_neg at htau
    have hsq : 0 < Real.sqrt tau := Real.sqrt_pos.mpr htau
    have hs : 0 < m.sigma_model * Real.sqrt tau := mul_pos hsig hsq
    simp only [call_price, call_delta, if_neg (not_le.mpr htau)]
    refine ⟨?_, hPhi0 _, hPhi1 _⟩
    set s := m.sigma_model * Real.sqrt tau with hs_def
    set d1 := (Real.log (S / K) + (m.r + 0.5 * m.sigma_model ^ 2) * tau) / s
      with hd1_def
    have hsd1 : s * d1 =
        Real.log (S / K) + (m.r + 0.5 * m.sigma_model ^ 2) * tau := by
      rw [hd1_def]
      field_simp
    have hs2 : s ^ 2 = m.sigma_model ^ 2 * tau := by
      rw [hs_def, mul_pow, Real.sq_sqrt htau.le]
    have harg : s * (d1 - s) + s ^ 2 / 2 = Real.log (S / K) + m.r * tau := by
      linear_combination hsd1 - (1 / 2 : ℝ) * hs2
    have hkey : K * Real.exp (-m.r * tau) *
        Real.exp (s * (d1 - s) + s ^ 2 / 2) = S := by
      rw [harg, Real.exp_add, Real.exp_log (div_pos hS hK),
        show -m.r * tau = -(m.r * tau) by ring, Real.exp_neg]
      field_simp
      ring
    have hGz := hPhiG (d1 - s) s hs
    rw [show d1 - s + s = d1 by ring] at hGz
    have hKe : 0 ≤ K * Real.exp (-m.r * tau) :=
      le_of_lt (mul_pos hK (Real.exp_pos _))
    have h2 : K * Real.exp (-m.r * tau) * Phi (d1 - s) ≤
        K * Real.exp (-m.r * tau) *
          (Real.exp (s * (d1 - s) + s ^ 2 / 2) * Phi d1) :=
      mul_le_mul_of_nonneg_left hGz hKe
    have h3 : K * Real.exp (-m.r * tau) *
        (Real.exp (s * (d1 - s) + s ^ 2 / 2) * Phi d1) = S * Phi d1 := by
      rw [← mul_assoc, hkey]
    linarith [h2, h3]

/-- Witness for `c7_price_delta_bounds` at
`Phi = PhiZero, m = mA, S = 1, K = 1, tau = 1`. -/
theorem c7_price_delta_bounds_witness :
    ((∀ x : ℝ, 0 ≤ PhiZero x) ∧ (∀ x : ℝ, PhiZero x ≤ 1) ∧
      (∀ x s : ℝ, 0 < s →
        PhiZero x ≤ Real.exp (s * x + s ^ 2 / 2) * PhiZero (x + s)) ∧
      (0 : ℝ) < 1 ∧ 0 < mA.sigma_model) ∧
    (0 ≤ call_price PhiZero mA 1 1 1 ∧
      0 ≤ call_delta PhiZero mA 1 1 1 ∧ call_delta PhiZero mA 1 1 1 ≤ 1) :=
  ⟨⟨fun _ => le_refl 0, fun _ => by norm_num [PhiZero],
      fun x s hs => by simp [PhiZero], by norm_num, by norm_num [mA]⟩,
    c7_price_delta_bounds PhiZero (fun _ => le_refl 0)
      (fun _ => by norm_num [PhiZero]) (fun x s hs => by simp [PhiZero])
      mA 1 1 1 (by norm_num) (by norm_num) (by norm_num [mA])⟩

/-! ### Claim C8 -/

/-- C8, counterexample to the claim as stated: invalid parameters are NOT
rejected at the call boundary.  `hedgeIntervalSteps = 3` with `N = 2` is
outside `[1, N]`, yet `delta_hedge_short_call` runs to completion and
returns a fully formed (degenerate) result: the rebalancing loop body
never executes and the recorded times are `[0, T] = [0, 1]`. -/
theorem c8_counterexample :
    ¬ validParams mB 3 ∧
    (delta_hedge_short_call PhiZero mB 1 3 dZero).hedge_times = [0, 1] ∧
    (delta_hedge_short_call PhiZero mB 1 3 dZero).portfolio_values.length = 2 := by
  obtain ⟨-, -, -, -, hht⟩ := delta_hedge_result_shape PhiZero mB 1 3 dZero
  obtain ⟨hp, -, -, -⟩ := delta_hedge_lengths PhiZero mB 1 3 dZero
  refine ⟨?_, ?_, ?_⟩
  · intro hv
    obtain ⟨-, -, -, -, -, -, h7⟩ := hv
    revert h7
    decide
  · rw [hht]
    norm_num [mB, tEntry, timeGrid, List.range_succ]
  · rw [hp]
    decide

/-- C8 (amended): the source performs no parameter validation.  A call
with `hedgeIntervalSteps > N` (outside `[1, N]`) is not rejected: the
computation proceeds, the rebalancing loop runs zero times, and a
complete degenerate result is returned whose portfolio, option and time
series have 2 entries, whose delta series has 1 entry, and whose
recorded times are `[0, T]`.  Non-positive prices, volatilities or
maturities likewise flow into the computation unchecked. -/
theorem c8_no_validation (Phi : ℝ → ℝ) (m : EulerBlackScholes) (K : ℝ)
    (hedge_interval : ℕ) (dW : ℕ → ℝ)
    (hN : 1 ≤ m.N) (hbig : m.N < hedge_interval) :
    ¬ validParams m hedge_interval ∧
    (delta_hedge_short_call Phi m K hedge_interval dW).hedge_times = [0, m.T] ∧
    (delta_hedge_short_call Phi m K hedge_interval dW).portfolio_values.length = 2 ∧
    (delta_hedge_short_call Phi m K hedge_interval dW).option_values.length = 2 ∧
    (delta_hedge_short_call Phi m K hedge_interval dW).delta_values.length = 1 := by
  have hdiv : m.N / hedge_interval = 0 := Nat.div_eq_of_lt hbig
  obtain ⟨-, -, -, -, hht⟩ := delta_hedge_result_shape Phi m K hedge_interval dW
  obtain ⟨hp, ho, hd, -⟩ := delta_hedge_lengths Phi m K hedge_interval dW
  refine ⟨?_, ?_, by rw [hp, hdiv], by rw [ho, hdiv], by rw [hd, hdiv]⟩
  · intro hv
    obtain ⟨-, -, -, -, -, -, h7⟩ := hv
    omega
  · rw [hht, hdiv]
    norm_num [tEntry, timeGrid, List.range_succ]

/-- Witness for `c8_no_validation` at
`Phi = PhiZero, m = mB, K = 1, hedgeIntervalSteps = 3, dW = dZero`. -/
theorem c8_no_validation_witness :
    (1 ≤ mB.N ∧ mB.N < 3) ∧
    (¬ validParams mB 3 ∧
      (delta_hedge_short_call PhiZero mB 1 3 dZero).hedge_times = [0, mB.T] ∧
      (delta_hedge_short_call PhiZero mB 1 3 dZero).portfolio_values.length = 2 ∧
      (delta_hedge_short_call PhiZero mB 1 3 dZero).option_values.length = 2 ∧
      (delta_hedge_short_call PhiZero mB 1 3 dZero).delta_values.length = 1) :=
  ⟨⟨by decide, by decide⟩,
    c8_no_validation PhiZero mB 1 3 dZero (by decide) (by decide)⟩

/-! ### Claim C2 -/

/-- The last entry of a list with one element appended. -/
lemma getLast_append_single (l : List ℝ) (x : ℝ) :
    (l ++ [x]).getLast? = some x := by
  rw [List.getLast?_append_of_ne_nil l (List.cons_ne_nil x [])]
  rfl

/-- C2, counterexample to the claim as stated: when `hedgeIntervalSteps`
does not divide `N`, the terminal settlement does NOT include the claimed
step-3a–3c-equivalent update over the tail interval.  With the `mC`
parameters (`r = 2`, `T = N = 3`, zero draws give the constant path
`S ≡ 1`) and `hedgeIntervalSteps = 2` (last regular checkpoint at index
2, tail of 1 step), the code's final P&L is `1/2 - exp(-2)/2 ≈ 0.432`
whereas the settlement described by the claim (tail interest accrual and
rebalance to the terminal delta before liquidation) yields `0`. -/
theorem c2_counterexample :
    (delta_hedge_short_call PhiHalf mC 1 2 dZero).final_pnl ≠
      specFinalPnl PhiHalf mC 1 2 (simPath mC dZero) := by
  have hr : mC.r = 2 := rfl
  have hT : mC.T = 3 := rfl
  have hN : mC.N = 3 := rfl
  have hS0 : mC.S0 = 1 := rfl
  have hsig : mC.sigma_true = 2 := rfl
  have hdt : mC.dt = 1 := by
    rw [EulerBlackScholes.dt, hT, hN]
    norm_num
  have hS : ∀ t, simPath mC dZero t = 1 := by
    intro t
    induction t with
    | zero => exact hS0
    | succ t ih =>
        rw [simPath, ih, hdt, hr, hsig]
        norm_num [dZero, Real.exp_zero]
  have hp0 : call_price PhiHalf mC mC.S0 1 mC.T = 1 / 2 - Real.exp (-6) / 2 := by
    rw [call_price, hS0, hT, if_neg (by norm_num : ¬ (3 : ℝ) ≤ 0)]
    simp only [PhiHalf, hr]
    norm_num
    ring
  have hd0 : call_delta PhiHalf mC mC.S0 1 mC.T = 1 / 2 := by
    rw [call_delta, hS0, hT, if_neg (by norm_num : ¬ (3 : ℝ) ≤ 0)]
    simp only [PhiHalf]
  have hc0 : (stateAfter PhiHalf mC 1 2 (simPath mC dZero) 0).cash_account =
      -Real.exp (-6) / 2 := by
    have h0 : (stateAfter PhiHalf mC 1 2 (simPath mC dZero) 0).cash_account =
        call_price PhiHalf mC mC.S0 1 mC.T -
          call_delta PhiHalf mC mC.S0 1 mC.T * mC.S0 := rfl
    rw [h0, hp0, hd0, hS0]
    ring
  have hst0 : (stateAfter PhiHalf mC 1 2 (simPath mC dZero) 0).stock_position =
      1 / 2 := by
    have h0 : (stateAfter PhiHalf mC 1 2 (simPath mC dZero) 0).stock_position =
        call_delta PhiHalf mC mC.S0 1 mC.T := rfl
    rw [h0, hd0]
  have htau2 : mC.T - timeGrid mC ((0 + 1) * 2) = 1 := by
    rw [timeGrid, hdt, hT]
    norm_num
  have hd2 : call_delta PhiHalf mC (simPath mC dZero ((0 + 1) * 2)) 1
      (mC.T - timeGrid mC ((0 + 1) * 2)) = 1 / 2 := by
    rw [htau2, call_delta, if_neg (by norm_num : ¬ (1 : ℝ) ≤ 0)]
    simp only [PhiHalf]
  have hee : Real.exp (-6) * Real.exp 4 = Real.exp (-2) := by
    rw [← Real.exp_add]
    norm_num
  have hstep1 : (stateAfter PhiHalf mC 1 2 (simPath mC dZero) 1).cash_account =
      (stateAfter PhiHalf mC 1 2 (simPath mC dZero) 0).cash_account *
        Real.exp (mC.r * ((2 : ℕ) : ℝ) * mC.dt) -
      (call_delta PhiHalf mC (simPath mC dZero ((0 + 1) * 2)) 1
          (mC.T - timeGrid mC ((0 + 1) * 2)) -
        (stateAfter PhiHalf mC 1 2 (simPath mC dZero) 0).stock_position) *
        simPath mC dZero ((0 + 1) * 2) := rfl
  have hc1 : (stateAfter PhiHalf mC 1 2 (simPath mC dZero) 1).cash_account =
      -Real.exp (-2) / 2 := by
    rw [hstep1, hc0, hst0, hd2, hS, hr, hdt]
    norm_num
    linear_combination (-(1 : ℝ) / 2) * hee
  have hst1 : (stateAfter PhiHalf mC 1 2 (simPath mC dZero) 1).stock_position =
      1 / 2 := by
    have h1 : (stateAfter PhiHalf mC 1 2 (simPath mC dZero) 1).stock_position =
        call_delta PhiHalf mC (simPath mC dZero ((0 + 1) * 2)) 1
          (mC.T - timeGrid mC ((0 + 1) * 2)) := rfl
    rw [h1, hd2]
  obtain ⟨hf, -, -, -, -⟩ := delta_hedge_result_shape PhiHalf mC 1 2 dZero
  have hM : mC.N / 2 = 1 := by decide
  have hcode : (delta_hedge_short_call PhiHalf mC 1 2 dZero).final_pnl =
      1 / 2 - Real.exp (-2) / 2 := by
    rw [hf, hM, hc1, hst1, hS]
    norm_num
    ring
  have hspec : specFinalPnl PhiHalf mC 1 2 (simPath mC dZero) = 0 := by
    have hne : ¬ (mC.N / 2 * 2 = mC.N) := by decide
    have htauN : mC.T - timeGrid mC mC.N = 0 := by
      rw [timeGrid, hdt, hT, hN]
      norm_num
    have hdN : call_delta PhiHalf mC (simPath mC dZero mC.N) 1
        (mC.T - timeGrid mC mC.N) = 0 := by
      rw [htauN, hS, call_delta, if_pos (le_refl (0 : ℝ)),
        if_neg (by norm_num : ¬ (1 : ℝ) < 1)]
    have htail : ((mC.N - 1 * 2 : ℕ) : ℝ) = 1 := by
      rw [hN]
      norm_num
    have hee2 : Real.exp (-2) * Real.exp 2 = 1 := by
      rw [← Real.exp_add]
      norm_num [Real.exp_zero]
    simp only [specFinalPnl]
    rw [if_neg hne, hM, hc1, hst1, hdN, hS, htail, hr, hdt]
    norm_num
    linear_combination (-(1 : ℝ) / 2) * hee2
  rw [hcode, hspec]
  have hlt : Real.exp (-2) < 1 := by
    rw [← Real.exp_zero]
    exact Real.exp_lt_exp.mpr (by norm_num)
  intro hcontr
  nlinarith [hlt]

/-- C2 (amended): `delta_hedge_short_call` performs exactly one terminal
settlement at grid index `N`: the payoff `max 0 (S[N] - K)` is computed,
the stock position is liquidated at `S[N]`, the payoff is paid, and the
final P&L is the resulting cash, which is also appended as the last
portfolio value, with the payoff as last option value and `T` as last
recorded time.  However, when the last regular checkpoint falls short of
`N` the settlement includes NO step-3a–3c-equivalent update: cash is
carried over the tail interval without interest accrual and no rebalance
to the terminal delta takes place before liquidation. -/
theorem c2_terminal_settlement (Phi : ℝ → ℝ) (m : EulerBlackScholes)
    (K : ℝ) (hedge_interval : ℕ) (dW : ℕ → ℝ)
    (hlo : 1 ≤ hedge_interval) (hhi : hedge_interval ≤ m.N) :
    (delta_hedge_short_call Phi m K hedge_interval dW).final_pnl =
      (stateAfter Phi m K hedge_interval (simPath m dW)
          (m.N / hedge_interval)).cash_account +
        (stateAfter Phi m K hedge_interval (simPath m dW)
          (m.N / hedge_interval)).stock_position * simPath m dW m.N -
        max 0 (simPath m dW m.N - K) ∧
    (delta_hedge_short_call Phi m K hedge_interval dW).portfolio_values.getLast? =
      some (delta_hedge_short_call Phi m K hedge_interval dW).final_pnl ∧
    (delta_hedge_short_call Phi m K hedge_interval dW).option_values.getLast? =
      some (max 0 (simPath m dW m.N - K)) ∧
    (delta_hedge_short_call Phi m K hedge_interval dW).hedge_times.getLast? =
      some m.T := by
  obtain ⟨hf, hp, ho, -, ht⟩ := delta_hedge_result_shape Phi m K hedge_interval dW
  refine ⟨hf, ?_, ?_, ?_⟩
  · rw [hp, hf, getLast_append_single]
  · rw [ho, getLast_append_single]
  · rw [ht, getLast_append_single]

/-- Witness for `c2_terminal_settlement` at
`Phi = PhiZero, m = mB, K = 1, hedgeIntervalSteps = 1, dW = dZero`. -/
theorem c2_terminal_settlement_witness :
    (1 ≤ 1 ∧ 1 ≤ mB.N) ∧
    ((delta_hedge_short_call PhiZero mB 1 1 dZero).final_pnl =
        (stateAfter PhiZero mB 1 1 (simPath mB dZero)
            (mB.N / 1)).cash_account +
          (stateAfter PhiZero mB 1 1 (simPath mB dZero)
            (mB.N / 1)).stock_position * simPath mB dZero mB.N -
          max 0 (simPath mB dZero mB.N - 1) ∧
      (delta_hedge_short_call PhiZero mB 1 1 dZero).portfolio_values.getLast? =
        some (delta_hedge_short_call PhiZero mB 1 1 dZero).final_pnl ∧
      (delta_hedge_short_call PhiZero mB 1 1 dZero).option_values.getLast? =
        some (max 0 (simPath mB dZero mB.N - 1)) ∧
      (delta_hedge_short_call PhiZero mB 1 1 dZero).hedge_times.getLast? =
        some mB.T) :=
  ⟨⟨le_refl 1, by decide⟩,
    c2_terminal_settlement PhiZero mB 1 1 dZero (le_refl 1) (by decide)⟩

/-! ### Claim C10 -/

/-- C10: the first recorded portfolio value of a hedge run equals the
initial option price exactly: cash is initialized to
`option_price - delta * S0` and the stock position to `delta`, so the
recorded initial portfolio value `cash + delta * S0` cancels to
`call_price(S0, K, T)`. -/
theorem c10_initial_portfolio_value (Phi : ℝ → ℝ) (m : EulerBlackScholes)
    (K : ℝ) (hedge_interval : ℕ) (dW : ℕ → ℝ) (hlo : 1 ≤ hedge_interval) :
    (delta_hedge_short_call Phi m K hedge_interval dW).portfolio_values.head? =
      some (call_price Phi m m.S0 K m.T) := by
  obtain ⟨-, hp, -, -, -⟩ := delta_hedge_result_shape Phi m K hedge_interval dW
  rw [hp, List.range_succ_eq_map]
  simp [pvEntry, stateAfter, initState, simPath]

/-- Witness for `c10_initial_portfolio_value` at
`Phi = PhiZero, m = mA, K = 1, hedgeIntervalSteps = 1, dW = dZero`. -/
theorem c10_initial_portfolio_value_witness :
    1 ≤ 1 ∧
    (delta_hedge_short_call PhiZero mA 1 1 dZero).portfolio_values.head? =
      some (call_price PhiZero mA mA.S0 1 mA.T) :=
  ⟨le_refl 1, c10_initial_portfolio_value PhiZero mA 1 1 dZero (le_refl 1)⟩

/-! ### Claim C4 -/

/-- C4: the simulated price path returned by `simulate` starts at `S0`,
follows the log-Euler recurrence
`S[t] = S[t-1] * exp((r - σ_true²/2)·Δt + σ_true·dW_t)` for `t = 1..N`,
and is strictly positive everywhere, for any realized Gaussian draws. -/
theorem c4_simulate_path (m : EulerBlackScholes) (dW : ℕ → ℝ)
    (h0 : 0 < m.S0) :
    (simulate m dW).2.getD 0 0 = m.S0 ∧
    (∀ t, 1 ≤ t → t ≤ m.N →
      (simulate m dW).2.getD t 0 =
        (simulate m dW).2.getD (t - 1) 0 *
          Real.exp ((m.r - 0.5 * m.sigma_true ^ 2) * m.dt +
            m.sigma_true * dW t)) ∧
    (∀ t, t ≤ m.N → 0 < (simulate m dW).2.getD t 0) := by
  have hget : ∀ t, t ≤ m.N →
      (simulate m dW).2.getD t 0 = simPath m dW t := by
    intro t ht
    exact getD_range_map _ (by omega)
  refine ⟨?_, ?_, ?_⟩
  · rw [hget 0 (Nat.zero_le _)]
    rfl
  · intro t h1 h2
    obtain ⟨s, rfl⟩ : ∃ s, t = s + 1 := ⟨t - 1, by omega⟩
    rw [hget (s + 1) h2, hget (s + 1 - 1) (by omega)]
    simp [simPath]
  · intro t ht
    rw [hget t ht]
    exact simPath_pos m dW h0 t

/-- Witness for `c4_simulate_path` at `m = mA, dW = dZero`. -/
theorem c4_simulate_path_witness :
    0 < mA.S0 ∧ 0 < (simulate mA dZero).2.getD 1 0 :=
  ⟨by norm_num [mA],
    (c4_simulate_path mA dZero (by norm_num [mA])).2.2 1 (by decide)⟩
